import Mathlib

/-!
Shallow embedding of the WeldX detection-response pipeline
(`src/server/routes.ts`) and the storage layer (`src/unnamed/part_004`).

Conventions:
* JavaScript numbers are modelled as `ℚ` (all arithmetic in the pipeline is
  exact decimal arithmetic on small values; no overflow is possible);
  `Math.floor` is `Int.floor`, producing `ℤ` pixel coordinates.
* `Math.random()` is modelled as a stream `f : ℕ → ℚ` together with the index
  of the next draw; every call to `Math.random()` consumes one position.
  The contract of `Math.random` (result in `[0, 1)`) is the `InUnit` predicate.
* The TypeScript field `class` is a reserved word in Lean and is called `cls`.
-/

set_option allowUnsafeReducibility true
attribute [local semireducible] Rat.add Rat.mul Rat.sub Rat.inv Rat.ofScientific

namespace WeldX

/-- `Math.random()` returns a value in `[0, 1)`. -/
def InUnit (r : ℚ) : Prop := 0 ≤ r ∧ r < 1

/-- A bounding box as built in `routes.ts` (integer pixels via `Math.floor`). -/
structure BBox where
  x : ℤ
  y : ℤ
  width : ℤ
  height : ℤ
deriving DecidableEq, Repr

/-- A detection as pushed by the generators (no `center` field: the center is
added later by the response assembly `detections.map`). -/
structure Detection where
  cls : String
  confidence : ℚ
  bbox : BBox
deriving DecidableEq, Repr

structure Center where
  x : ℚ
  y : ℚ
deriving DecidableEq, Repr

/-- A detection as it appears in the assembled response: the generator
detection spread together with the derived `center`. -/
structure OutDetection where
  cls : String
  confidence : ℚ
  bbox : BBox
  center : Center
deriving DecidableEq, Repr

/-- `image_info` as built in the `/api/analyze` handler. -/
structure ImageInfo where
  filename : String
  width : ℤ
  height : ℤ
  format : String
  size_bytes : ℤ
deriving DecidableEq, Repr

/-- The crack bounding box of `generateEnhancedDetections` /
`generateSimulatedDetections` (both use the same expressions):
`x = ⌊width·(0.2+r·0.4)⌋`, `y = ⌊height·(0.3+r·0.4)⌋`,
`width = ⌊width·(0.15+r·0.1)⌋`, `height = ⌊height·(0.08+r·0.05)⌋`. -/
def crackBBox (w h : ℤ) (rx ry rw rh : ℚ) : BBox :=
  { x := ⌊(w : ℚ) * (2/10 + rx * (4/10))⌋
    y := ⌊(h : ℚ) * (3/10 + ry * (4/10))⌋
    width := ⌊(w : ℚ) * (15/100 + rw * (1/10))⌋
    height := ⌊(h : ℚ) * (8/100 + rh * (5/100))⌋ }

/-- The porosity bounding box (identical in both generators). -/
def porosityBBox (w h : ℤ) (rx ry rw rh : ℚ) : BBox :=
  { x := ⌊(w : ℚ) * (2/10 + rx * (5/10))⌋
    y := ⌊(h : ℚ) * (15/100 + ry * (6/10))⌋
    width := ⌊(w : ℚ) * (4/100 + rw * (4/100))⌋
    height := ⌊(h : ℚ) * (4/100 + rh * (4/100))⌋ }

/-- The slag bounding box (identical in both generators). -/
def slagBBox (w h : ℤ) (rx ry rw rh : ℚ) : BBox :=
  { x := ⌊(w : ℚ) * (2/10 + rx * (5/10))⌋
    y := ⌊(h : ℚ) * (15/100 + ry * (6/10))⌋
    width := ⌊(w : ℚ) * (6/100 + rw * (5/100))⌋
    height := ⌊(h : ℚ) * (3/100 + rh * (3/100))⌋ }

/-- Crack branch of `generateEnhancedDetections`: one probability draw, and on
success a confidence draw `max(confidenceThreshold, 0.8 + r·0.15)` followed by
the four bbox draws. Returns the pushed detections and the next draw index. -/
def crackStep (f : ℕ → ℚ) (info : ImageInfo) (t prob : ℚ) (i : ℕ) :
    List Detection × ℕ :=
  if f i < prob then
    ([⟨"crack", max t (8/10 + f (i+1) * (15/100)),
       crackBBox info.width info.height (f (i+2)) (f (i+3)) (f (i+4)) (f (i+5))⟩],
     i + 6)
  else ([], i + 1)

/-- One iteration of the porosity `for` loop in `generateEnhancedDetections`:
confidence `max(confidenceThreshold, 0.7 + r·0.2)` and four bbox draws. -/
def porosityInstance (f : ℕ → ℚ) (info : ImageInfo) (t : ℚ) (i : ℕ) :
    Detection × ℕ :=
  (⟨"porosity", max t (7/10 + f i * (2/10)),
    porosityBBox info.width info.height (f (i+1)) (f (i+2)) (f (i+3)) (f (i+4))⟩,
   i + 5)

/-- The porosity `for (let i = 0; i < count; i++)` loop of
`generateEnhancedDetections`, pushing `count` detections in order. -/
def porosityLoop (f : ℕ → ℚ) (info : ImageInfo) (t : ℚ) :
    ℕ → ℕ → List Detection × ℕ
  | 0, i => ([], i)
  | n + 1, i =>
    let p := porosityInstance f info t i
    let rest := porosityLoop f info t n p.2
    (p.1 :: rest.1, rest.2)

/-- Porosity branch of `generateEnhancedDetections`: probability draw, then a
count draw `hasEnhancement ? 1 + ⌊rand·3⌋ : 1 + ⌊rand·2⌋`, then the loop. -/
def porosityStep (f : ℕ → ℚ) (info : ImageInfo) (t prob : ℚ)
    (hasEnhancement : Bool) (i : ℕ) : List Detection × ℕ :=
  if f i < prob then
    let count : ℕ :=
      if hasEnhancement then (1 + ⌊f (i+1) * 3⌋).toNat
      else (1 + ⌊f (i+1) * 2⌋).toNat
    porosityLoop f info t count (i + 2)
  else ([], i + 1)

/-- Slag branch of `generateEnhancedDetections`: probability draw, and on
success a confidence draw `max(confidenceThreshold, 0.65 + r·0.2)` and the
four bbox draws. -/
def slagStep (f : ℕ → ℚ) (info : ImageInfo) (t prob : ℚ) (i : ℕ) :
    List Detection × ℕ :=
  if f i < prob then
    ([⟨"slag", max t (65/100 + f (i+1) * (2/10)),
       slagBBox info.width info.height (f (i+2)) (f (i+3)) (f (i+4)) (f (i+5))⟩],
     i + 6)
  else ([], i + 1)

/-- `generateEnhancedDetections` before its final `return detections.filter(...)`
line: the `detections` array as populated by the pushes.  The 85% outer gate,
the mode-dependent base probabilities, and the enhancement multipliers are as
in `routes.ts` lines 792-857. -/
def generateEnhancedDetectionsRaw (f : ℕ → ℚ) (info : ImageInfo)
    (imageMode enhancementMode : String) (confidenceThreshold : ℚ) (i : ℕ) :
    List Detection × ℕ :=
  let isXray := imageMode == "xray"
  let hasEnhancement := enhancementMode == "clahe" || enhancementMode == "advanced"
  let crackProb0 : ℚ := if isXray then 45/100 else 25/100
  let porosityProb0 : ℚ := if isXray then 6/10 else 35/100
  let slagProb0 : ℚ := if isXray then 35/100 else 15/100
  let crackProb := if hasEnhancement then crackProb0 * (12/10) else crackProb0
  let porosityProb := if hasEnhancement then porosityProb0 * (115/100) else porosityProb0
  let slagProb := if hasEnhancement then slagProb0 * (11/10) else slagProb0
  if f i < 85/100 then
    let c := crackStep f info confidenceThreshold crackProb (i + 1)
    let p := porosityStep f info confidenceThreshold porosityProb hasEnhancement c.2
    let s := slagStep f info confidenceThreshold slagProb p.2
    (c.1 ++ p.1 ++ s.1, s.2)
  else ([], i + 1)

/-- `generateEnhancedDetections`: the raw detections filtered by
`d.confidence >= confidenceThreshold` (the function's final line). -/
def generateEnhancedDetections (f : ℕ → ℚ) (info : ImageInfo)
    (imageMode enhancementMode : String) (confidenceThreshold : ℚ) (i : ℕ) :
    List Detection × ℕ :=
  let raw := generateEnhancedDetectionsRaw f info imageMode enhancementMode
    confidenceThreshold i
  (raw.1.filter (fun d => decide (confidenceThreshold ≤ d.confidence)), raw.2)

/-- Crack branch of `generateSimulatedDetections` (fixed 45% probability,
confidence `0.85 + r·0.1`, no threshold floor). -/
def crackStepSim (f : ℕ → ℚ) (info : ImageInfo) (i : ℕ) : List Detection × ℕ :=
  if f i < 45/100 then
    ([⟨"crack", 85/100 + f (i+1) * (1/10),
       crackBBox info.width info.height (f (i+2)) (f (i+3)) (f (i+4)) (f (i+5))⟩],
     i + 6)
  else ([], i + 1)

/-- One porosity detection of `generateSimulatedDetections`
(confidence `0.75 + r·0.15`). -/
def porosityInstanceSim (f : ℕ → ℚ) (info : ImageInfo) (i : ℕ) : Detection × ℕ :=
  (⟨"porosity", 75/100 + f i * (15/100),
    porosityBBox info.width info.height (f (i+1)) (f (i+2)) (f (i+3)) (f (i+4))⟩,
   i + 5)

/-- The porosity loop of `generateSimulatedDetections`. -/
def porosityLoopSim (f : ℕ → ℚ) (info : ImageInfo) :
    ℕ → ℕ → List Detection × ℕ
  | 0, i => ([], i)
  | n + 1, i =>
    let p := porosityInstanceSim f info i
    let rest := porosityLoopSim f info n p.2
    (p.1 :: rest.1, rest.2)

/-- Porosity branch of `generateSimulatedDetections` (60% probability; the
count draw `1 + ⌊rand·2⌋` happens only when `hasHighRes`, otherwise the count
is 1 and no draw is consumed). -/
def porosityStepSim (f : ℕ → ℚ) (info : ImageInfo) (hasHighRes : Bool)
    (i : ℕ) : List Detection × ℕ :=
  if f i < 6/10 then
    if hasHighRes then
      porosityLoopSim f info (1 + ⌊f (i+1) * 2⌋).toNat (i + 2)
    else
      porosityLoopSim f info 1 (i + 1)
  else ([], i + 1)

/-- Slag branch of `generateSimulatedDetections` (35% probability, confidence
`0.70 + r·0.15`). -/
def slagStepSim (f : ℕ → ℚ) (info : ImageInfo) (i : ℕ) : List Detection × ℕ :=
  if f i < 35/100 then
    ([⟨"slag", 7/10 + f (i+1) * (15/100),
       slagBBox info.width info.height (f (i+2)) (f (i+3)) (f (i+4)) (f (i+5))⟩],
     i + 6)
  else ([], i + 1)

/-- `generateSimulatedDetections` from `routes.ts` lines 726-784 (the fallback
endpoint's generator; `hasLargeFile` is computed in the source but unused). -/
def generateSimulatedDetections (f : ℕ → ℚ) (info : ImageInfo) (i : ℕ) :
    List Detection × ℕ :=
  let hasHighRes := decide (1000 < info.width ∨ 1000 < info.height)
  if f i < 85/100 then
    let c := crackStepSim f info (i + 1)
    let p := porosityStepSim f info hasHighRes c.2
    let s := slagStepSim f info p.2
    (c.1 ++ p.1 ++ s.1, s.2)
  else ([], i + 1)

/-- `summary.defect_types` is a JavaScript object keyed by class name; keys are
kept in first-insertion order, so it is modelled as an association list.
`bumpDefectType m c` is `defectTypes[c] = (defectTypes[c] || 0) + 1`. -/
def bumpDefectType (m : List (String × ℕ)) (c : String) : List (String × ℕ) :=
  match m with
  | [] => [(c, 1)]
  | (k, n) :: rest =>
    if k == c then (k, n + 1) :: rest else (k, n) :: bumpDefectType rest c

/-- The `detections.forEach` loop of the `/api/analyze` handler that populates
`defectTypes`. -/
def computeDefectTypes (ds : List Detection) : List (String × ℕ) :=
  ds.foldl (fun m d => bumpDefectType m d.cls) []

/-- The `totalConfidence` accumulator of the same `forEach` loop. -/
def totalConfidence (ds : List Detection) : ℚ :=
  ds.foldl (fun s d => s + d.confidence) 0

/-- `detections.length > 0 ? totalConfidence / detections.length : 0`. -/
def averageConfidence (ds : List Detection) : ℚ :=
  if 0 < ds.length then totalConfidence ds / (ds.length : ℚ) else 0

/-- `summary` of the `/api/analyze` response. -/
structure Summary where
  total_defects : ℕ
  defect_types : List (String × ℕ)
  average_confidence : ℚ
  processing_time : ℚ
deriving DecidableEq, Repr

/-- `detections.map(d => ({...d, center: {...}}))` of the response assembly:
the center is computed from the bbox, never taken from the input. -/
def addCenter (d : Detection) : OutDetection :=
  { cls := d.cls, confidence := d.confidence, bbox := d.bbox
    center := { x := (d.bbox.x : ℚ) + (d.bbox.width : ℚ) / 2
                y := (d.bbox.y : ℚ) + (d.bbox.height : ℚ) / 2 } }

/-- The success-path `response` object of the `/api/analyze` handler. -/
structure AnalysisResponse where
  success : Bool
  message : String
  image_info : ImageInfo
  detections : List OutDetection
  summary : Summary
deriving DecidableEq, Repr

/-- The JSON reply actually sent to the HTTP client.  The two failure replies
(`400` missing file, `500` catch block) contain only `success` and `message`;
their `image_info` / `detections` / `summary` fields are absent, which is
modelled by `Option` (`none` = field not present in the JSON object). -/
structure HttpReply where
  status : ℕ
  success : Bool
  message : String
  image_info : Option ImageInfo
  detections : Option (List OutDetection)
  summary : Option Summary
deriving DecidableEq, Repr

/-- `req.file` as provided by multer. -/
structure MulterFile where
  originalname : String
  mimetype : String
  size : ℤ
deriving DecidableEq, Repr

/-- The request fields read by the `/api/analyze` handler.
`confidenceThreshold` holds the result of
`parseFloat(req.body.confidenceThreshold)`: `none` stands for `NaN`
(absent field or unparsable string), `some v` for a finite parse result. -/
structure AnalyzeRequest where
  file : Option MulterFile
  imageMode : Option String
  enhancementMode : Option String
  confidenceThreshold : Option ℚ
deriving DecidableEq, Repr

/-- JavaScript `x || dflt` on a possibly-missing string field: `undefined` and
the empty string are the falsy string values. -/
def orDefaultStr (v : Option String) (dflt : String) : String :=
  match v with
  | none => dflt
  | some s => if s == "" then dflt else s

/-- `parseFloat(req.body.confidenceThreshold) || 0.5`: `NaN` (`none`) and `0`
are falsy, so both yield the default `0.5`. -/
def parseThreshold (parsed : Option ℚ) : ℚ :=
  match parsed with
  | none => 1/2
  | some v => if v = 0 then 1/2 else v

/-- `PostgresStorage.saveAnalysisResult` (`src/unnamed/part_004` lines 81-107):
on a database insert error it logs `Database insert error` and then rethrows
(`throw error`), despite the adjacent comment promising a fallback to memory
storage.  `dbInsertOk` abstracts whether `db.insert` succeeds. -/
def PostgresStorage.saveAnalysisResult (dbInsertOk : Bool) : Except String Unit :=
  if dbInsertOk then Except.ok () else Except.error "Database insert error"

/-- `mimetype.split('/')[1].toUpperCase()` of the handler's `image_info`. -/
def formatOfMimetype (m : String) : String :=
  ((m.splitOn "/").getD 1 "").toUpper

/-- The `/api/analyze` handler (`routes.ts` lines 267-349).  `f`/`i` model the
`Math.random()` stream, `elapsedSeconds` the wall-clock
`(Date.now() - startTime) / 1000`, and `dbInsertOk` whether the awaited
`storage.saveAnalysisResult` database insert succeeds.  When it throws, the
handler's catch block produces the `500` failure reply and the assembled
response is discarded. -/
def analyzeHandler (req : AnalyzeRequest) (f : ℕ → ℚ) (i : ℕ)
    (elapsedSeconds : ℚ) (dbInsertOk : Bool) : HttpReply :=
  match req.file with
  | none =>
    { status := 400, success := false, message := "No image file uploaded"
      image_info := none, detections := none, summary := none }
  | some file =>
    let imageMode := orDefaultStr req.imageMode "xray"
    let enhancementMode := orDefaultStr req.enhancementMode "none"
    let confidenceThreshold := parseThreshold req.confidenceThreshold
    let imageInfo : ImageInfo :=
      { filename := file.originalname
        width := 1024 + ⌊f i * 512⌋
        height := 768 + ⌊f (i+1) * 384⌋
        format := formatOfMimetype file.mimetype
        size_bytes := file.size }
    let detections := (generateEnhancedDetections f imageInfo imageMode
      enhancementMode confidenceThreshold (i + 2)).1
    let response : AnalysisResponse :=
      { success := true
        message := "Analysis completed successfully" ++
          (if enhancementMode == "clahe" then " with CLAHE enhancement" else "")
        image_info := imageInfo
        detections := detections.map addCenter
        summary :=
          { total_defects := detections.length
            defect_types := computeDefectTypes detections
            average_confidence := averageConfidence detections
            processing_time := elapsedSeconds } }
    match PostgresStorage.saveAnalysisResult dbInsertOk with
    | Except.error e =>
      { status := 500, success := false, message := "Analysis failed: " ++ e
        image_info := none, detections := none, summary := none }
    | Except.ok _ =>
      { status := 200, success := response.success, message := response.message
        image_info := some response.image_info
        detections := some response.detections
        summary := some response.summary }

/-- A tiny heap of JavaScript arrays of analysis responses, to model array
identity: `MemStorage.getAnalysisHistory` returns `[...this.analysisHistory]`,
a fresh array, so mutating the returned array must not affect the store. -/
structure Heap where
  cells : ℕ → List AnalysisResponse
  nextAddr : ℕ

/-- Allocate a new array (`[...]` literal / spread). -/
def Heap.alloc (h : Heap) (v : List AnalysisResponse) : ℕ × Heap :=
  (h.nextAddr, ⟨Function.update h.cells h.nextAddr v, h.nextAddr + 1⟩)

def Heap.read (h : Heap) (a : ℕ) : List AnalysisResponse :=
  h.cells a

/-- Overwrite the contents of the array at `a` (models any in-place mutation
of that array by the caller). -/
def Heap.write (h : Heap) (a : ℕ) (v : List AnalysisResponse) : Heap :=
  ⟨Function.update h.cells a v, h.nextAddr⟩

def emptyHeap : Heap := ⟨fun _ => [], 0⟩

/-- `MemStorage` holds one private array `analysisHistory`. -/
structure MemStorage where
  addr : ℕ

/-- `new MemStorage()`: `analysisHistory = []`. -/
def mkMemStorage (h : Heap) : MemStorage × Heap :=
  let a := h.alloc []
  (⟨a.1⟩, a.2)

/-- `MemStorage.saveAnalysisResult`: `this.analysisHistory.push(result)`. -/
def MemStorage.saveAnalysisResult (s : MemStorage) (h : Heap)
    (r : AnalysisResponse) : Heap :=
  h.write s.addr (h.read s.addr ++ [r])

/-- `MemStorage.getAnalysisHistory`: `return [...this.analysisHistory]` — the
contents are copied into a freshly allocated array whose address is returned. -/
def MemStorage.getAnalysisHistory (s : MemStorage) (h : Heap) : ℕ × Heap :=
  h.alloc (h.read s.addr)

/-- A sequence of `saveAnalysisResult` calls. -/
def saveAll (s : MemStorage) (h : Heap) (rs : List AnalysisResponse) : Heap :=
  rs.foldl (fun h r => s.saveAnalysisResult h r) h

/-- The store of `export const storage = new MemStorage()` on a fresh heap. -/
def store0 : MemStorage := (mkMemStorage emptyHeap).1

def heap0 : Heap := (mkMemStorage emptyHeap).2

/-- The heap after an arbitrary sequence of `saveAnalysisResult` calls. -/
def heapAfter (rs : List AnalysisResponse) : Heap := saveAll store0 heap0 rs

/-- The `getAnalysisHistory()` call after those saves: returns the address of
the freshly copied array together with the heap. -/
def histCall (rs : List AnalysisResponse) : ℕ × Heap :=
  store0.getAnalysisHistory (heapAfter rs)

/- Specification predicates used to classify generator output. -/

/-- A synthesized confidence: a sample `s` from `[lo, hi)` raised to
`max t s`, `t` being the caller's confidence floor. -/
def ConfidenceShape (t lo hi c : ℚ) : Prop :=
  ∃ s, lo ≤ s ∧ s < hi ∧ c = max t s

/-- A bbox produced by the box builder `mk` for image `info` from four
`Math.random()` draws. -/
def BoxShape (info : ImageInfo) (mk : ℤ → ℤ → ℚ → ℚ → ℚ → ℚ → BBox)
    (b : BBox) : Prop :=
  ∃ rx ry rw rh, InUnit rx ∧ InUnit ry ∧ InUnit rw ∧ InUnit rh ∧
    b = mk info.width info.height rx ry rw rh

/-- Classification of every detection pushed by `generateEnhancedDetections`:
class, confidence sample range (as implemented: crack `[0.80, 0.95)`,
porosity `[0.70, 0.90)`, slag `[0.65, 0.85)`), and box builder. -/
def EnhancedShape (info : ImageInfo) (t : ℚ) (d : Detection) : Prop :=
  (d.cls = "crack" ∧ ConfidenceShape t (8/10) (95/100) d.confidence ∧
    BoxShape info crackBBox d.bbox) ∨
  (d.cls = "porosity" ∧ ConfidenceShape t (7/10) (9/10) d.confidence ∧
    BoxShape info porosityBBox d.bbox) ∨
  (d.cls = "slag" ∧ ConfidenceShape t (65/100) (85/100) d.confidence ∧
    BoxShape info slagBBox d.bbox)

/-- Every bbox of `generateSimulatedDetections` comes from one of the three
box builders. -/
def SimulatedBoxShape (info : ImageInfo) (b : BBox) : Prop :=
  BoxShape info crackBBox b ∨ BoxShape info porosityBBox b ∨
    BoxShape info slagBBox b

/-- The §3 bounds invariant for a box within image `info`. -/
def InFrame (info : ImageInfo) (b : BBox) : Prop :=
  0 ≤ b.x ∧ 0 ≤ b.y ∧ b.x + b.width ≤ info.width ∧
    b.y + b.height ≤ info.height

/-- `sum(summary.defect_types.values())`. -/
def sumCounts (m : List (String × ℕ)) : ℕ := (m.map Prod.snd).sum

/- Concrete fixtures (a constant-zero `Math.random()` stream and a typical
upload) used for counterexamples and witnesses. -/

def f0 : ℕ → ℚ := fun _ => 0

def info1024 : ImageInfo := ⟨"welding_xray.jpg", 1024, 768, "JPEG", 3000000⟩

/-- An upload request with `confidenceThreshold=1.0`. -/
def req0 : AnalyzeRequest :=
  { file := some ⟨"weld.jpg", "image/jpeg", 3000000⟩
    imageMode := none, enhancementMode := none, confidenceThreshold := some 1 }

/-- A request with no uploaded file. -/
def reqNoFile : AnalyzeRequest :=
  { file := none, imageMode := none, enhancementMode := none
    confidenceThreshold := none }

def defaultDetection : Detection := ⟨"", 0, ⟨0, 0, 0, 0⟩⟩

def defaultOut : OutDetection := ⟨"", 0, ⟨0, 0, 0, 0⟩, ⟨0, 0⟩⟩

def defaultSummary : Summary := ⟨0, [], 0, 0⟩

/-- The detections of the success reply to `req0`. -/
def outDets0 : List OutDetection :=
  ((analyzeHandler req0 f0 0 0 true).detections).getD []

/-- The summary of the success reply to `req0`. -/
def summary0 : Summary :=
  ((analyzeHandler req0 f0 0 0 true).summary).getD defaultSummary

def od0 : OutDetection := outDets0.getD 0 defaultOut

/-- First detection returned at threshold 1 on the constant-zero stream. -/
def enhDet1 : Detection :=
  ((generateEnhancedDetections f0 info1024 "xray" "none" 1 0).1).getD 0
    defaultDetection

/-- First detection returned at threshold 0.5 on the constant-zero stream. -/
def genDet0 : Detection :=
  ((generateEnhancedDetections f0 info1024 "xray" "none" (1/2) 0).1).getD 0
    defaultDetection

/-- First raw (pre-filter) detection at threshold 0.5, constant-zero stream. -/
def rawDet0 : Detection :=
  ((generateEnhancedDetectionsRaw f0 info1024 "xray" "none" (1/2) 0).1).getD 0
    defaultDetection

/- Basic facts about the fixtures and the floor arithmetic of the box
builders. -/

theorem hf0 : ∀ n, InUnit (f0 n) := fun _ => ⟨le_refl 0, by norm_num [f0]⟩

theorem floor_frac_nonneg (w : ℤ) (hw : 0 ≤ w) (p : ℚ) (hp : 0 ≤ p) :
    0 ≤ ⌊(w : ℚ) * p⌋ :=
  Int.floor_nonneg.mpr (mul_nonneg (by exact_mod_cast hw) hp)

theorem floor_frac_add_le (w : ℤ) (hw : 0 ≤ w) (p q : ℚ) (hpq : p + q ≤ 1) :
    ⌊(w : ℚ) * p⌋ + ⌊(w : ℚ) * q⌋ ≤ w := by
  have hwq : (0 : ℚ) ≤ (w : ℚ) := by exact_mod_cast hw
  have h2 : ((⌊(w : ℚ) * p⌋ + ⌊(w : ℚ) * q⌋ : ℤ) : ℚ) ≤ (w : ℚ) := by
    push_cast
    nlinarith [Int.floor_le ((w : ℚ) * p), Int.floor_le ((w : ℚ) * q),
      mul_le_mul_of_nonneg_left hpq hwq]
  exact_mod_cast h2

theorem crackBBox_inFrame (info : ImageInfo) (hw : 0 ≤ info.width)
    (hh : 0 ≤ info.height) (rx ry rw rh : ℚ) (hrx : InUnit rx)
    (hry : InUnit ry) (hrw : InUnit rw) (hrh : InUnit rh) :
    InFrame info (crackBBox info.width info.height rx ry rw rh) := by
  obtain ⟨hrx0, hrx1⟩ := hrx
  obtain ⟨hry0, hry1⟩ := hry
  obtain ⟨hrw0, hrw1⟩ := hrw
  obtain ⟨hrh0, hrh1⟩ := hrh
  simp only [InFrame, crackBBox]
  exact ⟨floor_frac_nonneg _ hw _ (by nlinarith),
    floor_frac_nonneg _ hh _ (by nlinarith),
    floor_frac_add_le _ hw _ _ (by nlinarith),
    floor_frac_add_le _ hh _ _ (by nlinarith)⟩

theorem porosityBBox_inFrame (info : ImageInfo) (hw : 0 ≤ info.width)
    (hh : 0 ≤ info.height) (rx ry rw rh : ℚ) (hrx : InUnit rx)
    (hry : InUnit ry) (hrw : InUnit rw) (hrh : InUnit rh) :
    InFrame info (porosityBBox info.width info.height rx ry rw rh) := by
  obtain ⟨hrx0, hrx1⟩ := hrx
  obtain ⟨hry0, hry1⟩ := hry
  obtain ⟨hrw0, hrw1⟩ := hrw
  obtain ⟨hrh0, hrh1⟩ := hrh
  simp only [InFrame, porosityBBox]
  exact ⟨floor_frac_nonneg _ hw _ (by nlinarith),
    floor_frac_nonneg _ hh _ (by nlinarith),
    floor_frac_add_le _ hw _ _ (by nlinarith),
    floor_frac_add_le _ hh _ _ (by nlinarith)⟩

theorem slagBBox_inFrame (info : ImageInfo) (hw : 0 ≤ info.width)
    (hh : 0 ≤ info.height) (rx ry rw rh : ℚ) (hrx : InUnit rx)
    (hry : InUnit ry) (hrw : InUnit rw) (hrh : InUnit rh) :
    InFrame info (slagBBox info.width info.height rx ry rw rh) := by
  obtain ⟨hrx0, hrx1⟩ := hrx
  obtain ⟨hry0, hry1⟩ := hry
  obtain ⟨hrw0, hrw1⟩ := hrw
  obtain ⟨hrh0, hrh1⟩ := hrh
  simp only [InFrame, slagBBox]
  exact ⟨floor_frac_nonneg _ hw _ (by nlinarith),
    floor_frac_nonneg _ hh _ (by nlinarith),
    floor_frac_add_le _ hw _ _ (by nlinarith),
    floor_frac_add_le _ hh _ _ (by nlinarith)⟩

/- Shape of every detection pushed by the enhanced generator. -/

theorem crackStep_shape (f : ℕ → ℚ) (hf : ∀ n, InUnit (f n)) (info : ImageInfo)
    (t prob : ℚ) (i : ℕ) :
    ∀ d ∈ (crackStep f info t prob i).1,
      d.cls = "crack" ∧ ConfidenceShape t (8/10) (95/100) d.confidence ∧
        BoxShape info crackBBox d.bbox := by
  intro d hd
  simp only [crackStep] at hd
  split at hd
  · simp only [List.mem_singleton] at hd
    subst hd
    refine ⟨rfl, ⟨8/10 + f (i+1) * (15/100), ?_, ?_, rfl⟩,
      f (i+2), f (i+3), f (i+4), f (i+5), hf _, hf _, hf _, hf _, rfl⟩
    · nlinarith [(hf (i+1)).1]
    · nlinarith [(hf (i+1)).2]
  · simp at hd

theorem porosityLoop_shape (f : ℕ → ℚ) (hf : ∀ n, InUnit (f n))
    (info : ImageInfo) (t : ℚ) :
    ∀ n i, ∀ d ∈ (porosityLoop f info t n i).1,
      d.cls = "porosity" ∧ ConfidenceShape t (7/10) (9/10) d.confidence ∧
        BoxShape info porosityBBox d.bbox := by
  intro n
  induction n with
  | zero => intro i d hd; simp [porosityLoop] at hd
  | succ n ih =>
    intro i d hd
    simp only [porosityLoop, porosityInstance, List.mem_cons] at hd
    rcases hd with hd | hd
    · subst hd
      refine ⟨rfl, ⟨7/10 + f i * (2/10), ?_, ?_, rfl⟩,
        f (i+1), f (i+2), f (i+3), f (i+4), hf _, hf _, hf _, hf _, rfl⟩
      · nlinarith [(hf i).1]
      · nlinarith [(hf i).2]
    · exact ih _ d hd

theorem porosityStep_shape (f : ℕ → ℚ) (hf : ∀ n, InUnit (f n))
    (info : ImageInfo) (t prob : ℚ) (he : Bool) (i : ℕ) :
    ∀ d ∈ (porosityStep f info t prob he i).1,
      d.cls = "porosity" ∧ ConfidenceShape t (7/10) (9/10) d.confidence ∧
        BoxShape info porosityBBox d.bbox := by
  intro d hd
  simp only [porosityStep] at hd
  split at hd
  · exact porosityLoop_shape f hf info t _ _ d hd
  · simp at hd

theorem slagStep_shape (f : ℕ → ℚ) (hf : ∀ n, InUnit (f n)) (info : ImageInfo)
    (t prob : ℚ) (i : ℕ) :
    ∀ d ∈ (slagStep f info t prob i).1,
      d.cls = "slag" ∧ ConfidenceShape t (65/100) (85/100) d.confidence ∧
        BoxShape info slagBBox d.bbox := by
  intro d hd
  simp only [slagStep] at hd
  split at hd
  · simp only [List.mem_singleton] at hd
    subst hd
    refine ⟨rfl, ⟨65/100 + f (i+1) * (2/10), ?_, ?_, rfl⟩,
      f (i+2), f (i+3), f (i+4), f (i+5), hf _, hf _, hf _, hf _, rfl⟩
    · nlinarith [(hf (i+1)).1]
    · nlinarith [(hf (i+1)).2]
  · simp at hd

theorem generateEnhancedDetectionsRaw_shape (f : ℕ → ℚ)
    (hf : ∀ n, InUnit (f n)) (info : ImageInfo) (mode enh : String) (t : ℚ)
    (i : ℕ) :
    ∀ d ∈ (generateEnhancedDetectionsRaw f info mode enh t i).1,
      EnhancedShape info t d := by
  intro d hd
  simp only [generateEnhancedDetectionsRaw] at hd
  split at hd
  · simp only [List.mem_append] at hd
    rcases hd with (hd | hd) | hd
    · exact Or.inl (crackStep_shape f hf info t _ _ d hd)
    · exact Or.inr (Or.inl (porosityStep_shape f hf info t _ _ _ d hd))
    · exact Or.inr (Or.inr (slagStep_shape f hf info t _ _ d hd))
  · simp at hd

theorem generateEnhancedDetections_shape (f : ℕ → ℚ) (hf : ∀ n, InUnit (f n))
    (info : ImageInfo) (mode enh : String) (t : ℚ) (i : ℕ) :
    ∀ d ∈ (generateEnhancedDetections f info mode enh t i).1,
      EnhancedShape info t d := by
  intro d hd
  simp only [generateEnhancedDetections] at hd
  exact generateEnhancedDetectionsRaw_shape f hf info mode enh t i d
    (List.mem_of_mem_filter hd)

/- Shape of every bbox pushed by the simulated generator. -/

theorem crackStepSim_shape (f : ℕ → ℚ) (hf : ∀ n, InUnit (f n))
    (info : ImageInfo) (i : ℕ) :
    ∀ d ∈ (crackStepSim f info i).1, SimulatedBoxShape info d.bbox := by
  intro d hd
  simp only [crackStepSim] at hd
  split at hd
  · simp only [List.mem_singleton] at hd
    subst hd
    exact Or.inl ⟨f (i+2), f (i+3), f (i+4), f (i+5),
      hf _, hf _, hf _, hf _, rfl⟩
  · simp at hd

theorem porosityLoopSim_shape (f : ℕ → ℚ) (hf : ∀ n, InUnit (f n))
    (info : ImageInfo) :
    ∀ n i, ∀ d ∈ (porosityLoopSim f info n i).1,
      SimulatedBoxShape info d.bbox := by
  intro n
  induction n with
  | zero => intro i d hd; simp [porosityLoopSim] at hd
  | succ n ih =>
    intro i d hd
    simp only [porosityLoopSim, porosityInstanceSim, List.mem_cons] at hd
    rcases hd with hd | hd
    · subst hd
      exact Or.inr (Or.inl ⟨f (i+1), f (i+2), f (i+3), f (i+4),
        hf _, hf _, hf _, hf _, rfl⟩)
    · exact ih _ d hd

theorem porosityStepSim_shape (f : ℕ → ℚ) (hf : ∀ n, InUnit (f n))
    (info : ImageInfo) (hr : Bool) (i : ℕ) :
    ∀ d ∈ (porosityStepSim f info hr i).1, SimulatedBoxShape info d.bbox := by
  intro d hd
  simp only [porosityStepSim] at hd
  split at hd
  · split at hd
    · exact porosityLoopSim_shape f hf info _ _ d hd
    · exact porosityLoopSim_shape f hf info _ _ d hd
  · simp at hd

theorem slagStepSim_shape (f : ℕ → ℚ) (hf : ∀ n, InUnit (f n))
    (info : ImageInfo) (i : ℕ) :
    ∀ d ∈ (slagStepSim f info i).1, SimulatedBoxShape info d.bbox := by
  intro d hd
  simp only [slagStepSim] at hd
  split at hd
  · simp only [List.mem_singleton] at hd
    subst hd
    exact Or.inr (Or.inr ⟨f (i+2), f (i+3), f (i+4), f (i+5),
      hf _, hf _, hf _, hf _, rfl⟩)
  · simp at hd

theorem generateSimulatedDetections_shape (f : ℕ → ℚ) (hf : ∀ n, InUnit (f n))
    (info : ImageInfo) (i : ℕ) :
    ∀ d ∈ (generateSimulatedDetections f info i).1,
      SimulatedBoxShape info d.bbox := by
  intro d hd
  simp only [generateSimulatedDetections] at hd
  split at hd
  · simp only [List.mem_append] at hd
    rcases hd with (hd | hd) | hd
    · exact crackStepSim_shape f hf info _ d hd
    · exact porosityStepSim_shape f hf info _ _ d hd
    · exact slagStepSim_shape f hf info _ d hd
  · simp at hd

/-- C5: for every generated bounding box in every detection produced by the
pipeline (both `generateEnhancedDetections` and `generateSimulatedDetections`),
`0 ≤ x`, `0 ≤ y`, `x + width ≤ image.width` and `y + height ≤ image.height`,
where `image` is the `ImageInfo` the box was generated for. -/
theorem generated_boxes_in_frame (f fSim : ℕ → ℚ) (hf : ∀ n, InUnit (f n))
    (hfSim : ∀ n, InUnit (fSim n)) (info : ImageInfo) (mode enh : String)
    (t : ℚ) (i j : ℕ) (hw : 0 ≤ info.width) (hh : 0 ≤ info.height) :
    (∀ d ∈ (generateEnhancedDetections f info mode enh t i).1,
      InFrame info d.bbox) ∧
    (∀ d ∈ (generateSimulatedDetections fSim info j).1,
      InFrame info d.bbox) := by
  constructor
  · intro d hd
    have hs := generateEnhancedDetections_shape f hf info mode enh t i d hd
    simp only [EnhancedShape, BoxShape] at hs
    rcases hs with ⟨_, _, rx, ry, rw, rh, hrx, hry, hrw, hrh, hb⟩ |
      ⟨_, _, rx, ry, rw, rh, hrx, hry, hrw, hrh, hb⟩ |
      ⟨_, _, rx, ry, rw, rh, hrx, hry, hrw, hrh, hb⟩
    · rw [hb]; exact crackBBox_inFrame info hw hh rx ry rw rh hrx hry hrw hrh
    · rw [hb]; exact porosityBBox_inFrame info hw hh rx ry rw rh hrx hry hrw hrh
    · rw [hb]; exact slagBBox_inFrame info hw hh rx ry rw rh hrx hry hrw hrh
  · intro d hd
    have hs := generateSimulatedDetections_shape fSim hfSim info j d hd
    simp only [SimulatedBoxShape, BoxShape] at hs
    rcases hs with ⟨rx, ry, rw, rh, hrx, hry, hrw, hrh, hb⟩ |
      ⟨rx, ry, rw, rh, hrx, hry, hrw, hrh, hb⟩ |
      ⟨rx, ry, rw, rh, hrx, hry, hrw, hrh, hb⟩
    · rw [hb]; exact crackBBox_inFrame info hw hh rx ry rw rh hrx hry hrw hrh
    · rw [hb]; exact porosityBBox_inFrame info hw hh rx ry rw rh hrx hry hrw hrh
    · rw [hb]; exact slagBBox_inFrame info hw hh rx ry rw rh hrx hry hrw hrh

/-- C5 witness: the bounds invariant evaluated on a concrete detection
produced at threshold 0.5 from the constant-zero random stream. -/
theorem generated_boxes_in_frame_witness : InFrame info1024 genDet0.bbox :=
  (generated_boxes_in_frame f0 f0 hf0 hf0 info1024 "xray" "none" (1/2) 0 0
    (by decide) (by decide)).1 genDet0 (by decide)

/- Consequences of the confidence shape. -/

theorem confidenceShape_le_conf (t lo hi c : ℚ)
    (h : ConfidenceShape t lo hi c) : t ≤ c := by
  simp only [ConfidenceShape] at h
  obtain ⟨s, _, _, rfl⟩ := h
  exact le_max_left t s

theorem confidenceShape_one (lo hi c : ℚ) (hhi : hi ≤ 1)
    (h : ConfidenceShape 1 lo hi c) : c = 1 := by
  simp only [ConfidenceShape] at h
  obtain ⟨s, _, hs, rfl⟩ := h
  exact max_eq_left (le_of_lt (lt_of_lt_of_le hs hhi))

/-- C4 counterexample: at threshold 0.5 on the constant-zero random stream,
the pipeline returns an accepted crack detection whose confidence is exactly
0.8 — below the claimed crack sample range `0.85–0.95` — even though it was
not raised by the floor (`0.5 ≤ 0.8`). -/
theorem crack_confidence_below_claimed_range_cex :
    rawDet0.cls = "crack" ∧ rawDet0.confidence = 4/5 ∧
    ((4 : ℚ)/5 < 85/100) ∧ ((1 : ℚ)/2 ≤ 4/5) ∧
    rawDet0 ∈ (generateEnhancedDetections f0 info1024 "xray" "none" (1/2) 0).1 := by
  decide

/-- C4 (amended): every accepted detection's confidence is drawn from the
class-specific sample range implemented in `generateEnhancedDetections`
(crack `[0.80, 0.95)`, porosity `[0.70, 0.90)`, slag `[0.65, 0.85)`), then
raised to `max(sample, confidenceFloor)`; consequently the confidence floor is
a lower bound on every synthesized confidence and the function's final
`filter(d => d.confidence >= confidenceThreshold)` removes nothing. -/
theorem confidence_shape_and_vacuous_filter (f : ℕ → ℚ)
    (hf : ∀ n, InUnit (f n)) (info : ImageInfo) (mode enh : String) (t : ℚ)
    (i : ℕ) :
    (∀ d ∈ (generateEnhancedDetectionsRaw f info mode enh t i).1,
      t ≤ d.confidence ∧
      ((d.cls = "crack" ∧ ConfidenceShape t (8/10) (95/100) d.confidence) ∨
       (d.cls = "porosity" ∧ ConfidenceShape t (7/10) (9/10) d.confidence) ∨
       (d.cls = "slag" ∧ ConfidenceShape t (65/100) (85/100) d.confidence))) ∧
    (generateEnhancedDetections f info mode enh t i).1 =
      (generateEnhancedDetectionsRaw f info mode enh t i).1 := by
  constructor
  · intro d hd
    have hs := generateEnhancedDetectionsRaw_shape f hf info mode enh t i d hd
    simp only [EnhancedShape] at hs
    rcases hs with ⟨hc, hcs, _⟩ | ⟨hc, hcs, _⟩ | ⟨hc, hcs, _⟩
    · exact ⟨confidenceShape_le_conf _ _ _ _ hcs, Or.inl ⟨hc, hcs⟩⟩
    · exact ⟨confidenceShape_le_conf _ _ _ _ hcs, Or.inr (Or.inl ⟨hc, hcs⟩)⟩
    · exact ⟨confidenceShape_le_conf _ _ _ _ hcs, Or.inr (Or.inr ⟨hc, hcs⟩)⟩
  · simp only [generateEnhancedDetections]
    apply List.filter_eq_self.mpr
    intro d hd
    have hs := generateEnhancedDetectionsRaw_shape f hf info mode enh t i d hd
    simp only [EnhancedShape] at hs
    rcases hs with ⟨_, hcs, _⟩ | ⟨_, hcs, _⟩ | ⟨_, hcs, _⟩ <;>
      exact decide_eq_true (confidenceShape_le_conf _ _ _ _ hcs)

/-- C4 witness: the floor 0.5 is a lower bound on a concrete raw detection's
confidence. -/
theorem confidence_shape_witness : (1 : ℚ)/2 ≤ rawDet0.confidence :=
  ((confidence_shape_and_vacuous_filter f0 hf0 info1024 "xray" "none" (1/2) 0).1
    rawDet0 (by decide)).1

/- Sum and average of confidences. -/

theorem foldl_add_shift (ds : List Detection) :
    ∀ s : ℚ, ds.foldl (fun a d => a + d.confidence) s =
      s + ds.foldl (fun a d => a + d.confidence) 0 := by
  induction ds with
  | nil => intro s; simp
  | cons d ds ih =>
    intro s
    simp only [List.foldl_cons]
    rw [ih (s + d.confidence), ih (0 + d.confidence)]
    ring

theorem totalConfidence_cons (d : Detection) (ds : List Detection) :
    totalConfidence (d :: ds) = d.confidence + totalConfidence ds := by
  simp only [totalConfidence, List.foldl_cons]
  rw [foldl_add_shift]
  ring

theorem totalConfidence_all_one :
    ∀ ds : List Detection, (∀ d ∈ ds, d.confidence = 1) →
      totalConfidence ds = ds.length := by
  intro ds
  induction ds with
  | nil => intro _; simp [totalConfidence]
  | cons d ds ih =>
    intro h
    rw [totalConfidence_cons, h d (List.mem_cons_self d ds),
      ih (fun x hx => h x (List.mem_cons_of_mem d hx)), List.length_cons]
    push_cast
    ring

theorem averageConfidence_all_one (ds : List Detection)
    (h : ∀ d ∈ ds, d.confidence = 1) :
    averageConfidence ds = (if ds = [] then 0 else 1) := by
  cases ds with
  | nil => simp [averageConfidence]
  | cons d ds =>
    have hlen : (0 : ℕ) < (d :: ds).length := Nat.succ_pos _
    have hne : ((d :: ds).length : ℚ) ≠ 0 :=
      Nat.cast_ne_zero.mpr (Nat.succ_ne_zero _)
    simp only [averageConfidence, if_pos hlen]
    rw [totalConfidence_all_one _ h, if_neg (List.cons_ne_nil d ds)]
    exact div_self hne

/-- C1 counterexample: the concrete request `req0` carries
`confidenceThreshold = 1.0`, yet the reply holds three detections and
`summary.average_confidence = 1`, not an empty list with average 0: the
synthesis floor `Math.max(confidenceThreshold, sample)` lifts every confidence
to exactly 1.0 and the `>=` filter keeps them. -/
theorem threshold_one_nonempty_detections_cex :
    Option.map List.length (analyzeHandler req0 f0 0 0 true).detections =
      some 3 ∧
    Option.map Summary.average_confidence
      (analyzeHandler req0 f0 0 0 true).summary = some 1 := by
  decide

/-- C1 (amended): with `confidenceThreshold = 1.0` the detections list is not
necessarily empty; instead every returned detection has confidence exactly
1.0, and `average_confidence` is 0 when the list is empty and 1 otherwise. -/
theorem threshold_one_confidence_eq_one (f : ℕ → ℚ) (hf : ∀ n, InUnit (f n))
    (info : ImageInfo) (mode enh : String) (i : ℕ) :
    (∀ d ∈ (generateEnhancedDetections f info mode enh 1 i).1,
      d.confidence = 1) ∧
    averageConfidence (generateEnhancedDetections f info mode enh 1 i).1 =
      (if (generateEnhancedDetections f info mode enh 1 i).1 = [] then 0
       else 1) := by
  have hone : ∀ d ∈ (generateEnhancedDetections f info mode enh 1 i).1,
      d.confidence = 1 := by
    intro d hd
    have hs := generateEnhancedDetections_shape f hf info mode enh 1 i d hd
    simp only [EnhancedShape] at hs
    rcases hs with ⟨_, hcs, _⟩ | ⟨_, hcs, _⟩ | ⟨_, hcs, _⟩
    · exact confidenceShape_one _ _ _ (by norm_num) hcs
    · exact confidenceShape_one _ _ _ (by norm_num) hcs
    · exact confidenceShape_one _ _ _ (by norm_num) hcs
  exact ⟨hone, averageConfidence_all_one _ hone⟩

/-- C1 witness: a concrete detection returned at threshold 1 has
confidence exactly 1. -/
theorem threshold_one_confidence_eq_one_witness : enhDet1.confidence = 1 :=
  (threshold_one_confidence_eq_one f0 hf0 info1024 "xray" "none" 0).1
    enhDet1 (by decide)

/- Counting lemmas for `defect_types`. -/

theorem sumCounts_cons (k : String) (n : ℕ) (m : List (String × ℕ)) :
    sumCounts ((k, n) :: m) = n + sumCounts m := by
  simp [sumCounts]

theorem bumpDefectType_sum (m : List (String × ℕ)) (c : String) :
    sumCounts (bumpDefectType m c) = sumCounts m + 1 := by
  induction m with
  | nil => simp [bumpDefectType, sumCounts]
  | cons p m ih =>
    obtain ⟨k, n⟩ := p
    simp only [bumpDefectType]
    split
    · rw [sumCounts_cons, sumCounts_cons]
      omega
    · rw [sumCounts_cons, sumCounts_cons, ih]
      omega

theorem computeDefectTypes_sum_aux (ds : List Detection) :
    ∀ m, sumCounts (ds.foldl (fun m d => bumpDefectType m d.cls) m) =
      sumCounts m + ds.length := by
  induction ds with
  | nil => intro m; simp
  | cons d ds ih =>
    intro m
    simp only [List.foldl_cons, List.length_cons]
    rw [ih, bumpDefectType_sum]
    omega

theorem computeDefectTypes_sum (ds : List Detection) :
    sumCounts (computeDefectTypes ds) = ds.length := by
  have h := computeDefectTypes_sum_aux ds []
  simpa [computeDefectTypes, sumCounts] using h

theorem bumpDefectType_mem (m : List (String × ℕ)) (c : String)
    (p : String × ℕ) (hp : p ∈ bumpDefectType m c) :
    (p.1 = c ∧ p.2 ≠ 0) ∨ p ∈ m := by
  induction m with
  | nil =>
    simp only [bumpDefectType, List.mem_singleton] at hp
    subst hp
    exact Or.inl ⟨rfl, Nat.one_ne_zero⟩
  | cons q m ih =>
    obtain ⟨k, n⟩ := q
    simp only [bumpDefectType] at hp
    split at hp
    · rename_i hk
      rcases List.mem_cons.mp hp with hp | hp
      · subst hp
        exact Or.inl ⟨by simpa using hk, Nat.succ_ne_zero n⟩
      · exact Or.inr (List.mem_cons_of_mem _ hp)
    · rcases List.mem_cons.mp hp with hp | hp
      · exact Or.inr (hp ▸ List.mem_cons_self _ _)
      · rcases ih hp with h | h
        · exact Or.inl h
        · exact Or.inr (List.mem_cons_of_mem _ h)

theorem computeDefectTypes_keys_aux (ds : List Detection) :
    ∀ m, ∀ p ∈ ds.foldl (fun m d => bumpDefectType m d.cls) m,
      p ∈ m ∨ (p.1 ∈ ds.map Detection.cls ∧ p.2 ≠ 0) := by
  induction ds with
  | nil => intro m p hp; exact Or.inl hp
  | cons d ds ih =>
    intro m p hp
    simp only [List.foldl_cons] at hp
    rcases ih (bumpDefectType m d.cls) p hp with h | h
    · rcases bumpDefectType_mem m d.cls p h with ⟨h1, h2⟩ | h3
      · exact Or.inr ⟨by rw [h1, List.map_cons]; exact List.mem_cons_self _ _, h2⟩
      · exact Or.inl h3
    · exact Or.inr ⟨List.mem_cons_of_mem _ h.1, h.2⟩

theorem computeDefectTypes_keys (ds : List Detection) :
    ∀ p ∈ computeDefectTypes ds, p.2 ≠ 0 ∧ p.1 ∈ ds.map Detection.cls := by
  intro p hp
  rcases computeDefectTypes_keys_aux ds [] p hp with h | h
  · simp at h
  · exact ⟨h.2, h.1⟩

/-- C6: for every reply of the `/api/analyze` handler carrying a summary and a
detections list, the counts in `summary.defect_types` sum to
`summary.total_defects`, which equals the length of `detections`, and
`defect_types` has a key only for classes that occur in `detections`
(no key has count 0). -/
theorem summary_consistency (req : AnalyzeRequest) (f : ℕ → ℚ) (i : ℕ)
    (e : ℚ) (dbOk : Bool) (S : Summary) (ods : List OutDetection)
    (hS : (analyzeHandler req f i e dbOk).summary = some S)
    (hd : (analyzeHandler req f i e dbOk).detections = some ods) :
    sumCounts S.defect_types = S.total_defects ∧
    S.total_defects = ods.length ∧
    ∀ p ∈ S.defect_types, p.2 ≠ 0 ∧ p.1 ∈ ods.map OutDetection.cls := by
  rcases hfile : req.file with _ | file
  · simp [analyzeHandler, hfile] at hS
  · cases dbOk
    · simp [analyzeHandler, hfile, PostgresStorage.saveAnalysisResult] at hS
    · simp only [analyzeHandler, hfile, PostgresStorage.saveAnalysisResult,
        if_true, Option.some.injEq] at hS hd
      subst hS
      subst hd
      refine ⟨computeDefectTypes_sum _, (List.length_map _ _).symm, ?_⟩
      intro p hp
      have h := computeDefectTypes_keys _ p hp
      refine ⟨h.1, ?_⟩
      have hmap : (List.map addCenter
          (generateEnhancedDetections f
            { filename := file.originalname, width := 1024 + ⌊f i * 512⌋
              height := 768 + ⌊f (i+1) * 384⌋
              format := formatOfMimetype file.mimetype
              size_bytes := file.size }
            (orDefaultStr req.imageMode "xray")
            (orDefaultStr req.enhancementMode "none")
            (parseThreshold req.confidenceThreshold) (i + 2)).1).map
          OutDetection.cls =
          (generateEnhancedDetections f
            { filename := file.originalname, width := 1024 + ⌊f i * 512⌋
              height := 768 + ⌊f (i+1) * 384⌋
              format := formatOfMimetype file.mimetype
              size_bytes := file.size }
            (orDefaultStr req.imageMode "xray")
            (orDefaultStr req.enhancementMode "none")
            (parseThreshold req.confidenceThreshold) (i + 2)).1.map
            Detection.cls := by
        rw [List.map_map]
        rfl
      rw [hmap]
      exact h.2

/-- C6 witness: summary consistency evaluated on the concrete reply to
`req0`. -/
theorem summary_consistency_witness :
    sumCounts summary0.defect_types = summary0.total_defects ∧
    summary0.total_defects = outDets0.length :=
  ⟨(summary_consistency req0 f0 0 0 true summary0 outDets0 (by decide)
      (by decide)).1,
   (summary_consistency req0 f0 0 0 true summary0 outDets0 (by decide)
      (by decide)).2.1⟩

/-- C7: aggregating an empty detections list yields `average_confidence`
exactly 0 — the division `totalConfidence / detections.length` is guarded by
the `detections.length > 0` conditional and is never taken on the empty
list. -/
theorem averageConfidence_nil_eq_zero :
    averageConfidence [] = 0 := rfl

/-- C8: in every assembled reply, each detection's `center` equals
`(bbox.x + bbox.width/2, bbox.y + bbox.height/2)` exactly; the center is
computed by the assembling `detections.map` from the bbox (the generator
`Detection` record has no center field to supply independently). -/
theorem center_derived_from_bbox (req : AnalyzeRequest) (f : ℕ → ℚ) (i : ℕ)
    (e : ℚ) (dbOk : Bool) (ods : List OutDetection)
    (hd : (analyzeHandler req f i e dbOk).detections = some ods) :
    ∀ od ∈ ods,
      od.center.x = (od.bbox.x : ℚ) + (od.bbox.width : ℚ) / 2 ∧
      od.center.y = (od.bbox.y : ℚ) + (od.bbox.height : ℚ) / 2 := by
  rcases hfile : req.file with _ | file
  · simp [analyzeHandler, hfile] at hd
  · cases dbOk
    · simp [analyzeHandler, hfile, PostgresStorage.saveAnalysisResult] at hd
    · simp only [analyzeHandler, hfile, PostgresStorage.saveAnalysisResult,
        if_true, Option.some.injEq] at hd
      subst hd
      intro od hod
      rcases List.mem_map.mp hod with ⟨d, _, rfl⟩
      exact ⟨rfl, rfl⟩

/-- C8 witness: the center derivation evaluated on a concrete detection of
the reply to `req0`. -/
theorem center_derived_from_bbox_witness :
    od0.center.x = (od0.bbox.x : ℚ) + (od0.bbox.width : ℚ) / 2 ∧
    od0.center.y = (od0.bbox.y : ℚ) + (od0.bbox.height : ℚ) / 2 :=
  center_derived_from_bbox req0 f0 0 0 true outDets0 (by decide) od0
    (by decide)

/-- C9: `parseFloat(req.body.confidenceThreshold) || 0.5` coerces a supplied
threshold of 0 (and any string parsing to 0 or `NaN`) to the default 0.5, so
an explicit threshold of 0 is indistinguishable from an absent one: the
handler replies identically. -/
theorem threshold_zero_coerced_to_default (req : AnalyzeRequest) (f : ℕ → ℚ)
    (i : ℕ) (e : ℚ) (dbOk : Bool) :
    parseThreshold (some 0) = 1/2 ∧ parseThreshold none = 1/2 ∧
    analyzeHandler { req with confidenceThreshold := some 0 } f i e dbOk =
      analyzeHandler { req with confidenceThreshold := none } f i e dbOk := by
  refine ⟨by norm_num [parseThreshold], rfl, ?_⟩
  rcases hfile : req.file with _ | file
  · simp [analyzeHandler, hfile]
  · simp [analyzeHandler, hfile, parseThreshold]

/-- C2: the claim (per the spec and the storage layer's own "fallback" comment)
is that a failed history-store write is only logged and the analysis response
is still returned with `success:true`.  The code instead rethrows from
`PostgresStorage.saveAnalysisResult`, which the handler awaits inside its
`try` before `res.json(response)`, so the catch block discards the assembled
response and replies `500` with `success:false`. -/
theorem db_insert_failure_surfaced_as_500 :
    (analyzeHandler req0 f0 0 0 false).success = false ∧
    (analyzeHandler req0 f0 0 0 false).status = 500 ∧
    (analyzeHandler req0 f0 0 0 false).message =
      "Analysis failed: Database insert error" ∧
    (analyzeHandler req0 f0 0 0 true).success = true := by
  decide

/-- C3 counterexample: the missing-file failure reply has `success:false` but
carries no `detections` field at all (`none`, not `some []`) and no `summary`
field (so no `total_defects = 0` zero-value summary either). -/
theorem failure_reply_omits_detections_cex :
    (analyzeHandler reqNoFile f0 0 0 true).success = false ∧
    (analyzeHandler reqNoFile f0 0 0 true).detections ≠ some [] ∧
    (analyzeHandler reqNoFile f0 0 0 true).summary = none := by
  decide

/-- C3 (amended): every failure reply of the analysis endpoint (`success =
false`, e.g. missing uploaded file or a thrown error) consists of `success`
and a nonempty human-readable `message` only; the `detections`, `summary` and
`image_info` fields are omitted entirely rather than set to `[]` and a
zero-value summary. -/
theorem failure_reply_fields_absent (req : AnalyzeRequest) (f : ℕ → ℚ)
    (i : ℕ) (e : ℚ) (dbOk : Bool)
    (h : (analyzeHandler req f i e dbOk).success = false) :
    (analyzeHandler req f i e dbOk).detections = none ∧
    (analyzeHandler req f i e dbOk).summary = none ∧
    (analyzeHandler req f i e dbOk).image_info = none ∧
    (analyzeHandler req f i e dbOk).message ≠ "" := by
  rcases hfile : req.file with _ | file
  · refine ⟨?_, ?_, ?_, ?_⟩ <;>
      simp [analyzeHandler, hfile]
  · cases dbOk
    · refine ⟨?_, ?_, ?_, ?_⟩ <;>
        simp [analyzeHandler, hfile, PostgresStorage.saveAnalysisResult]
    · exfalso
      simp [analyzeHandler, hfile, PostgresStorage.saveAnalysisResult] at h

/-- C3 witness: the amended failure envelope evaluated on the concrete
missing-file request. -/
theorem failure_reply_fields_absent_witness :
    (analyzeHandler reqNoFile f0 0 0 true).detections = none ∧
    (analyzeHandler reqNoFile f0 0 0 true).summary = none ∧
    (analyzeHandler reqNoFile f0 0 0 true).image_info = none ∧
    (analyzeHandler reqNoFile f0 0 0 true).message ≠ "" :=
  failure_reply_fields_absent reqNoFile f0 0 0 true (by decide)

/- Heap lemmas for the in-memory store. -/

theorem Heap.read_write_self (h : Heap) (a : ℕ) (v : List AnalysisResponse) :
    (h.write a v).read a = v := by
  simp [Heap.read, Heap.write]

theorem Heap.read_write_ne (h : Heap) (a b : ℕ) (v : List AnalysisResponse)
    (hab : b ≠ a) : (h.write a v).read b = h.read b := by
  simp [Heap.read, Heap.write, Function.update_noteq hab]

theorem saveAll_read (s : MemStorage) :
    ∀ (rs : List AnalysisResponse) (h : Heap),
      (saveAll s h rs).read s.addr = h.read s.addr ++ rs := by
  intro rs
  induction rs with
  | nil => intro h; simp [saveAll]
  | cons r rs ih =>
    intro h
    simp only [saveAll, List.foldl_cons] at ih ⊢
    rw [ih, MemStorage.saveAnalysisResult, Heap.read_write_self]
    simp

theorem saveAll_nextAddr (s : MemStorage) :
    ∀ (rs : List AnalysisResponse) (h : Heap),
      (saveAll s h rs).nextAddr = h.nextAddr := by
  intro rs
  induction rs with
  | nil => intro h; rfl
  | cons r rs ih =>
    intro h
    simp only [saveAll, List.foldl_cons] at ih ⊢
    rw [ih]
    rfl

theorem getAnalysisHistory_read (s : MemStorage) (h : Heap) :
    (s.getAnalysisHistory h).2.read (s.getAnalysisHistory h).1 =
      h.read s.addr := by
  simp [MemStorage.getAnalysisHistory, Heap.alloc, Heap.read]

theorem getAnalysisHistory_read_old (s : MemStorage) (h : Heap)
    (hb : s.addr ≠ h.nextAddr) :
    (s.getAnalysisHistory h).2.read s.addr = h.read s.addr := by
  simp [MemStorage.getAnalysisHistory, Heap.alloc, Heap.read,
    Function.update_noteq hb]

/-- C10: on the in-memory store, after any sequence of `saveAnalysisResult`
calls, `getAnalysisHistory` returns exactly the saved responses in insertion
order; the returned array is a fresh copy living at a different address than
the store's private array, so overwriting the returned array with any value
`v` changes neither what the store holds nor what a subsequent
`getAnalysisHistory` returns. -/
theorem memStorage_save_get_roundtrip (rs : List AnalysisResponse)
    (v : List AnalysisResponse) :
    (histCall rs).2.read (histCall rs).1 = rs ∧
    (histCall rs).1 ≠ store0.addr ∧
    ((histCall rs).2.write (histCall rs).1 v).read store0.addr = rs ∧
    (store0.getAnalysisHistory
        ((histCall rs).2.write (histCall rs).1 v)).2.read
      (store0.getAnalysisHistory
        ((histCall rs).2.write (histCall rs).1 v)).1 = rs := by
  have haddr : store0.addr = 0 := rfl
  have hread : (heapAfter rs).read store0.addr = rs := by
    rw [heapAfter, saveAll_read]
    have h0 : heap0.read store0.addr = [] := by
      simp [heap0, store0, mkMemStorage, emptyHeap, Heap.alloc, Heap.read]
    rw [h0, List.nil_append]
  have hnext : (heapAfter rs).nextAddr = 1 := by
    rw [heapAfter, saveAll_nextAddr]
    rfl
  have h1 : (histCall rs).1 = (heapAfter rs).nextAddr := rfl
  have hneq : store0.addr ≠ (histCall rs).1 := by
    rw [haddr, h1, hnext]
    exact zero_ne_one
  have g1 : (histCall rs).2.read (histCall rs).1 = rs := by
    rw [histCall, getAnalysisHistory_read, hread]
  have hb : store0.addr ≠ (heapAfter rs).nextAddr := by
    rw [haddr, hnext]
    exact zero_ne_one
  have g3 : ((histCall rs).2.write (histCall rs).1 v).read store0.addr
      = rs := by
    rw [Heap.read_write_ne _ _ _ _ hneq, histCall,
      getAnalysisHistory_read_old store0 (heapAfter rs) hb, hread]
  have g4 : (store0.getAnalysisHistory
      ((histCall rs).2.write (histCall rs).1 v)).2.read
      (store0.getAnalysisHistory
        ((histCall rs).2.write (histCall rs).1 v)).1 = rs := by
    rw [getAnalysisHistory_read]
    exact g3
  exact ⟨g1, fun hc => hneq hc.symm, g3, g4⟩

end WeldX
